import Mathlib

/-!
Verification development for the `graphql-upload` HTTP handler
(`handler.go`).  The Go source is shallowly embedded: the dynamically
typed JSON value (`interface{}` after `encoding/json` decoding, plus the
spliced `File` struct) becomes the inductive `JSON`; the in-place
mutation performed by `set` becomes a function returning the updated
tree, with `none` standing for a Go runtime panic (failed type
assertion, slice index out of range); the HTTP entry point `ServeHTTP`
becomes a pure function from an abstracted decoded request to an
`Outcome` recording the response written and the executor invocations.

JSON text decoding, multipart form decoding and the network primitives
are out-of-scope collaborators of the system; the embedding represents
a request by the *results* those collaborators produce (decoded values,
or `none` for a decode failure), exactly at the interface boundary the
design document draws.
-/

namespace GraphqlUpload

/-- Dynamic JSON-shaped value: the embedding of Go's `interface{}` as
produced by `encoding/json` (`nil`, `bool`, `float64`, `string`,
`[]interface{}`, `map[string]interface{}`), extended with the `File`
struct value that the upload loop splices into the tree.  Numbers decode
to `float64` in Go; no code in the handler inspects a numeric value, so
the payload is represented opaquely by an `Int`.  Go map iteration order
is not observed by the handler on operation objects; object fields are
kept as an association list. -/
inductive JSON where
  | null
  | bool (b : Bool)
  | num (x : Int)
  | str (s : String)
  | arr (elems : List JSON)
  | obj (fields : List (String × JSON))
  | file (filename : String) (size : Int) (handle : Nat)

/-- A value that is neither a JSON object nor a JSON array (scalars,
`null`, and spliced file values). -/
def JSON.leaf : JSON → Bool
  | .obj _ => false
  | .arr _ => false
  | _ => true

/-- A parsed path segment, as built by the loop at the top of `set`:
either an object key (Go `string`) or an array index (Go `int`). -/
inductive Part where
  | key (k : String)
  | idx (i : Int)
  deriving DecidableEq, Repr

/-- Go `strings.Split(s, ".")` on the character list: `n` dots yield
`n + 1` pieces; the empty string yields one empty piece. -/
def splitDot : List Char → List (List Char)
  | [] => [[]]
  | c :: rest =>
    match splitDot rest with
    | [] => [[c]]
    | s :: ss => if c = '.' then [] :: s :: ss else (c :: s) :: ss

/-- Numeric value of a digit string (most significant first). -/
def digitsToInt (cs : List Char) : Int :=
  cs.foldl (fun acc c => acc * 10 + ((c.toNat : Int) - 48)) 0

/-- Go `strconv.Atoi`, with its error discarded the way `set` discards
it (`index, _ := strconv.Atoi(p)`): an optional sign followed by one or
more digits parses to its value, anything else leaves the zero value
`0`.  (Go's `int` range clamping on overflow is not modelled; no claim
involves numbers near `2^63`.) -/
def goAtoi : List Char → Int
  | [] => 0
  | '-' :: rest =>
    if !rest.isEmpty && rest.all Char.isDigit then -(digitsToInt rest) else 0
  | '+' :: rest =>
    if !rest.isEmpty && rest.all Char.isDigit then digitsToInt rest else 0
  | cs =>
    if cs.all Char.isDigit then digitsToInt cs else 0

/-- One iteration of the parsing loop in `set`:
`regexp.MatchString("\\d+", p)` performs an UNANCHORED match, so it
reports true iff the segment contains at least one ASCII digit anywhere
(Go's `\d` is exactly `[0-9]`); on a match the segment becomes an index
via `strconv.Atoi` with the error discarded (so a non-numeric segment
that merely contains a digit becomes index `0`).  Otherwise the segment
is an object key. -/
def parseSeg (cs : List Char) : Part :=
  if cs.any Char.isDigit then .idx (goAtoi cs) else .key (String.mk cs)

/-- The `parts` list built by the first loop of `set` from a destination
path: split on `.`, classify every piece. -/
def parsePath (path : String) : List Part :=
  (splitDot path.toList).map parseSeg

/-- Go map lookup `m[k]` restricted to present keys (`none` models the
missing-key case, where Go yields a `nil` interface). -/
def objLookup (k : String) : List (String × JSON) → Option JSON
  | [] => none
  | (k', v) :: rest => if k' = k then some v else objLookup k rest

/-- Go map store `m[k] = v`: replaces the binding when the key is
present, inserts it otherwise. -/
def objInsert (k : String) (v : JSON) : List (String × JSON) → List (String × JSON)
  | [] => [(k, v)]
  | (k', v') :: rest =>
    if k' = k then (k', v) :: rest else (k', v') :: objInsert k v rest

/-- The walking loop of `set` over already-parsed segments.  Go mutates
in place through map references and slice backing arrays; the embedding
returns the updated tree.  `none` models a Go runtime panic: a type
assertion `m.(map[string]interface{})` / `m.([]interface{})` on a value
of the wrong kind (including the `nil` obtained from a missing map key),
or a slice index out of range.  On the last segment a map store inserts
or overwrites; a slice store overwrites in range and panics otherwise. -/
def setParts (v : JSON) : JSON → List Part → Option JSON
  | t, [] => some t
  | .obj fs, .key k :: rest =>
    if rest.isEmpty then some (.obj (objInsert k v fs))
    else
      match objLookup k fs with
      | some c => (setParts v c rest).map (fun c2 => .obj (objInsert k c2 fs))
      | none => none
  | .arr xs, .idx i :: rest =>
    if 0 ≤ i then
      match xs[i.toNat]? with
      | some c =>
        if rest.isEmpty then some (.arr (xs.set i.toNat v))
        else (setParts v c rest).map (fun c2 => .arr (xs.set i.toNat c2))
      | none => none
    else none
  | _, _ :: _ => none

/-- The Go function `set(v, m, path)`: parse the path, then walk and
assign.  (The only error `set` can *return* is a `regexp.MatchString`
compile error, which cannot occur for the constant pattern; every real
failure is a panic, modelled by `none`.) -/
def set (v m : JSON) (path : String) : Option JSON :=
  setParts v m (parsePath path)

/-- Pure navigation along parsed segments, used to state, from the
design document's wording, what a tree "contains at" a path.  It follows
exactly the non-final steps of `set`'s walk: a key segment reads a
present map binding, an index segment reads an in-range array slot, and
anything else fails. -/
def getParts : JSON → List Part → Option JSON
  | t, [] => some t
  | .obj fs, .key k :: rest =>
    match objLookup k fs with
    | some c => getParts c rest
    | none => none
  | .arr xs, .idx i :: rest =>
    if 0 ≤ i then
      match xs[i.toNat]? with
      | some c => getParts c rest
      | none => none
    else none
  | _, _ :: _ => none

/-- The inner loop `for _, path := range paths { set(file, operations, path) }`:
splice one value at every path in order; a panic (`none`) aborts. -/
def spliceList (v : JSON) : JSON → List String → Option JSON
  | t, [] => some t
  | t, p :: rest =>
    match set v t p with
    | some t2 => spliceList v t2 rest
    | none => none


/-- The shape-mismatch condition of the design document at one
navigation step: the segment is a key but the node is not an object, or
the segment is an index but the node is not an array of sufficient
length (negative indices included). -/
def segMismatch : JSON → Part → Prop
  | .obj _, .key _ => False
  | .arr xs, .idx i => ¬(0 ≤ i ∧ i.toNat < xs.length)
  | _, _ => True


/-! ### The HTTP dispatcher (`ServeHTTP`)

The inbound `*http.Request` is represented by the results of the
out-of-scope decoding collaborators at their interface boundary:
`bodyJSON` is the outcome of `json.NewDecoder(r.Body).Decode` (`none`
for malformed JSON), `formMapJSON` and `formOperationsJSON` the outcomes
of the two `json.Unmarshal` calls on the multipart form fields (with
`formMapJSON` already converted to Go's `map[string][]string`, whose
iteration order is represented by the list order), and `formFiles` the
file parts addressable by `r.FormFile`.  `formParseError` is the result
of `r.ParseMultipartForm` (`some b` is an error, where `b` records
`errors.Is(err, syscall.EPIPE)`). -/

/-- The file part data `r.FormFile` yields: handle, filename, declared
size.  `handle` is the opaque `multipart.File` identity. -/
structure FilePart where
  filename : String
  size : Int
  handle : Nat
  deriving DecidableEq, Repr

/-- The inbound request, represented by its decoded content at the
collaborator boundary. -/
structure HttpRequest where
  method : String
  headers : List (String × String)
  remoteAddr : String
  queryQuery : String
  queryVariables : String
  queryOperationName : String
  queryVariablesJSON : Option (List (String × JSON))
  contentLength : Int
  bodyJSON : Option JSON
  formParseError : Option Bool
  formMapJSON : Option (List (String × List String))
  formOperationsJSON : Option JSON
  formFiles : List (String × FilePart)

/-- Go `http.Header.Get`: first value for the key, empty string when
absent (header-name canonicalization is outside the model). -/
def headerGet : List (String × String) → String → String
  | [], _ => ""
  | (k, v) :: rest, key => if k = key then v else headerGet rest key

/-- `net.SplitHostPort` reduced to what `getRemoteIp` consumes: the host
portion before the last `':'`, or `none` (an error) when the address has
no colon.  The bracketed-IPv6 validation of the real function is outside
the model; no claim depends on remote-IP resolution. -/
def hostBeforeLastColon : List Char → Option (List Char)
  | [] => none
  | c :: rest =>
    match hostBeforeLastColon rest with
    | some h => some (c :: h)
    | none => if c = ':' then some [] else none

/-- The Go function `getRemoteIp`: `X-Real-IP`, else the first
comma-separated entry of `X-Forwarded-For`, else the host portion of the
peer address, else the raw peer address. -/
def getRemoteIp (r : HttpRequest) : String :=
  let realIp := headerGet r.headers "X-Real-IP"
  if realIp ≠ "" then realIp
  else
    let ips := headerGet r.headers "X-Forwarded-For"
    if ips ≠ "" then String.mk (ips.toList.takeWhile (fun c => !(c == ',')))
    else
      match hostBeforeLastColon r.remoteAddr.toList with
      | some host => String.mk host
      | none => r.remoteAddr

/-- The normalized `Request` struct handed to the executor.  The Go
`context.Context` carries exactly the inbound headers and the resolved
remote IP; it is represented by those two values. -/
structure GoRequest where
  operationName : String
  query : String
  -- the Go field `Variables` (the name is a reserved word in Lean)
  vars : List (String × JSON)
  ctxHeaders : List (String × String)
  ctxRemoteIp : String

/-- Field extraction for `operationName` / `query`:
`if value, ok := data[k]; ok && value != nil { if tmp, ok := value.(string); ok { … } }`.
A missing key, a JSON `null`, or a non-string value all leave the zero
value `""`.  (The batch arm omits the explicit `!= nil` guard, but a
`nil` fails the string type assertion, so the result is identical.) -/
def extractString (data : List (String × JSON)) (k : String) : String :=
  match objLookup k data with
  | some (.str s) => s
  | _ => ""

/-- Field extraction for `variables`: present and an object, else the
zero value (Go's `nil` map, which behaves as the empty mapping). -/
def extractVariables (data : List (String × JSON)) : List (String × JSON) :=
  match objLookup "variables" data with
  | some (.obj m) => m
  | _ => []

/-- Build the normalized `Request` from one decoded operation object,
as both the single-object arm and the batch arm of `ServeHTTP` do. -/
def mkOpRequest (r : HttpRequest) (data : List (String × JSON)) : GoRequest :=
  { operationName := extractString data "operationName"
    query := extractString data "query"
    vars := extractVariables data
    ctxHeaders := r.headers
    ctxRemoteIp := getRemoteIp r }

/-- The object fields of a decoded value, total for stating theorems
(`[]` on non-objects; only ever used under an is-object hypothesis). -/
def JSON.objFields : JSON → List (String × JSON)
  | .obj fs => fs
  | _ => []

/-- One chunk written to the response body: `http.Error`'s plain-text
message (with its trailing newline) or one `json.Encoder.Encode` output
(serialization of the value is abstract). -/
inductive BodyChunk where
  | text (s : String)
  | jsonOf (j : JSON)

/-- The observable result of `ServeHTTP`: either a finished response
(content type, status, body writes, and the executor invocations in
order) or a runtime panic propagating out of the handler (with the
invocations made before it).  Encoding a `JSON` value never fails in the
model, so the encode-error arms are unreachable. -/
inductive Outcome where
  | resp (contentType : String) (status : Nat) (body : List BodyChunk)
      (calls : List GoRequest)
  | panic (calls : List GoRequest)

/-- The content type set on entry to `ServeHTTP`. -/
def jsonContentType : String := "application/json; charset=utf-8"

/-- The content type `http.Error` forces on error responses. -/
def textPlainContentType : String := "text/plain; charset=utf-8"

/-- Go `http.Error(w, message, status)`: forces the plain-text content
type and writes the message plus a newline. -/
def httpError (message : String) (status : Nat) : Outcome :=
  .resp textPlainContentType status [.text (message ++ "\n")] []

/-- The batching loop: per element, assert it is an object (a non-object
panics via `operation.(map[string]interface{})`), build the request,
invoke the executor, store the result in order.  Returns the invocations
made and `none` when the loop panicked. -/
def runBatch (exec : GoRequest → JSON) (r : HttpRequest) :
    List JSON → List GoRequest × Option (List JSON)
  | [] => ([], some [])
  | e :: rest =>
    match e with
    | .obj data =>
      let req := mkOpRequest r data
      let (calls, results) := runBatch exec r rest
      (req :: calls, results.map (fun rs => exec req :: rs))
    | _ => ([], none)

/-- The `switch data := operations.(type)` normalization-and-execution
block: an object yields one invocation and its encoded result; an array
runs the batch loop and encodes the ordered result array; anything else
(including the `nil` of an undecoded body) writes a bare 400 with empty
body. -/
def dispatchOperations (exec : GoRequest → JSON) (r : HttpRequest)
    (operations : Option JSON) : Outcome :=
  match operations with
  | some (.obj data) =>
    let req := mkOpRequest r data
    .resp jsonContentType 200 [.jsonOf (exec req)] [req]
  | some (.arr data) =>
    let (calls, results) := runBatch exec r data
    match results with
    | some rs => .resp jsonContentType 200 [.jsonOf (.arr rs)] calls
    | none => .panic calls
  | _ => .resp jsonContentType 400 [] []

/-- The GET arm of `ServeHTTP`: required `query` parameter, optional
JSON-object `variables`, optional `operationName`. -/
def serveGet (exec : GoRequest → JSON) (r : HttpRequest) : Outcome :=
  if r.queryQuery = "" then httpError "Missing query" 400
  else
    match (if r.queryVariables = "" then some [] else r.queryVariablesJSON) with
    | none => httpError "Bad variables" 400
    | some vars =>
      let req : GoRequest :=
        { operationName := r.queryOperationName
          query := r.queryQuery
          vars := vars
          ctxHeaders := r.headers
          ctxRemoteIp := getRemoteIp r }
      .resp jsonContentType 200 [.jsonOf (exec req)] [req]

/-- The `text/plain` / `application/json` POST arm: decode the body only
when `ContentLength > 0` (a decode failure is a 400), then normalize and
execute. -/
def servePostJSON (exec : GoRequest → JSON) (r : HttpRequest) : Outcome :=
  if 0 < r.contentLength then
    match r.bodyJSON with
    | none => httpError "JSON syntax error" 400
    | some ops => dispatchOperations exec r (some ops)
  else dispatchOperations exec r none

/-- Go `r.FormFile(key)`: the first file part submitted under the field
name, or an error (`none`) when the form has none. -/
def fileGet : List (String × FilePart) → String → Option FilePart
  | [], _ => none
  | (k, f) :: rest, key => if k = key then some f else fileGet rest key

/-- The upload-collection loop: for every entry of the decoded `map`,
look up the file part by field name; the first missing part makes
`r.FormFile` fail, which the code answers with a 400 (message
`"JSON syntax error"`). -/
def collectUploads (files : List (String × FilePart)) :
    List (String × List String) → Option (List (FilePart × List String))
  | [] => some []
  | (key, paths) :: rest =>
    match fileGet files key with
    | some f => (collectUploads files rest).map (fun us => (f, paths) :: us)
    | none => none

/-- The splice loop over all collected uploads: every (file, paths)
entry splices the same file value at each of its paths; a panic inside
`set` aborts. -/
def spliceUploads : JSON → List (FilePart × List String) → Option JSON
  | t, [] => some t
  | t, (f, paths) :: rest =>
    match spliceList (JSON.file f.filename f.size f.handle) t paths with
    | some t2 => spliceUploads t2 rest
    | none => none

/-- The multipart arm after `ParseMultipartForm` succeeded (or failed
with a swallowed `EPIPE`): decode `map`, resolve the file parts, decode
`operations`, splice, then normalize and execute. -/
def serveMultipartBody (exec : GoRequest → JSON) (r : HttpRequest) : Outcome :=
  match r.formMapJSON with
  | none => httpError "JSON syntax error" 400
  | some uploadsMap =>
    match collectUploads r.formFiles uploadsMap with
    | none => httpError "JSON syntax error" 400
    | some uploads =>
      match r.formOperationsJSON with
      | none => httpError "JSON syntax error" 400
      | some ops =>
        match spliceUploads ops uploads with
        | some ops2 => dispatchOperations exec r (some ops2)
        | none => .panic []

/-- The multipart arm of `ServeHTTP`: `errHandler` swallows an `EPIPE`
from `ParseMultipartForm` (execution continues) and panics on any other
parse error. -/
def serveMultipart (exec : GoRequest → JSON) (r : HttpRequest) : Outcome :=
  match r.formParseError with
  | some false => .panic []
  | _ => serveMultipartBody exec r

/-- Go `strings.SplitN(header, ";", 2)[0]` applied to the Content-Type
header: the prefix before the first `';'`. -/
def contentTypeOf (r : HttpRequest) : String :=
  String.mk ((headerGet r.headers "Content-Type").toList.takeWhile (fun c => !(c == ';')))

/-- The Go method `Handler.ServeHTTP`: set the JSON content type, then
dispatch on method and content type.  A method other than GET and POST
writes nothing further; a POST content type outside the three handled
cases leaves `operations` undecoded (`nil`), which the normalization
switch answers with a bare 400. -/
def serveHTTP (exec : GoRequest → JSON) (r : HttpRequest) : Outcome :=
  if r.method = "GET" then serveGet exec r
  else if r.method = "POST" then
    if contentTypeOf r = "text/plain" ∨ contentTypeOf r = "application/json" then
      servePostJSON exec r
    else if contentTypeOf r = "multipart/form-data" then serveMultipart exec r
    else dispatchOperations exec r none
  else .resp jsonContentType 200 [] []

/-- A minimal POST request fixture; witnesses override single fields. -/
def baseRequest : HttpRequest :=
  { method := "POST"
    headers := [("Content-Type", "application/json")]
    remoteAddr := "192.0.2.1:443"
    queryQuery := ""
    queryVariables := ""
    queryOperationName := ""
    queryVariablesJSON := none
    contentLength := 1
    bodyJSON := none
    formParseError := none
    formMapJSON := none
    formOperationsJSON := none
    formFiles := [] }

/-- A two-element batch fixture. -/
def batchRequest : HttpRequest :=
  { baseRequest with bodyJSON := some (JSON.arr
      [JSON.obj [("query", JSON.str "a")], JSON.obj [("query", JSON.str "b")]]) }

/-- A multipart fixture: upload map references field "file0", but the
form carries no file parts. -/
def multipartMissingRequest : HttpRequest :=
  { baseRequest with
    headers := [("Content-Type", "multipart/form-data; boundary=b")]
    formMapJSON := some [("file0", ["variables.f"])]
    formOperationsJSON := some (JSON.obj
      [("query", JSON.str "q"), ("variables", JSON.obj [("f", JSON.null)])]) }


/-! ### Association-list and array store lemmas -/

theorem objLookup_objInsert_self (k : String) (v : JSON) (fs : List (String × JSON)) :
    objLookup k (objInsert k v fs) = some v := by
  induction fs with
  | nil => simp [objInsert, objLookup]
  | cons kv rest ih =>
    obtain ⟨k', v'⟩ := kv
    by_cases h : k' = k <;> simp [objInsert, objLookup, h, ih]

theorem objLookup_objInsert_ne (k k2 : String) (h : k ≠ k2) (v : JSON)
    (fs : List (String × JSON)) :
    objLookup k2 (objInsert k v fs) = objLookup k2 fs := by
  induction fs with
  | nil => simp [objInsert, objLookup, h]
  | cons kv rest ih =>
    obtain ⟨k', v'⟩ := kv
    by_cases h1 : k' = k
    · subst h1
      simp [objInsert, objLookup, h]
    · by_cases h2 : k' = k2 <;> simp [objInsert, objLookup, h1, h2, ih, Ne.symm h]

/-! ### Leaf navigation lemmas -/

theorem getParts_leaf_cons (c : JSON) (hc : c.leaf = true) (s : Part) (r : List Part) :
    getParts c (s :: r) = none := by
  cases c <;> cases s <;> simp_all [JSON.leaf, getParts]

theorem setParts_leaf_cons (v c : JSON) (hc : c.leaf = true) (s : Part) (r : List Part) :
    setParts v c (s :: r) = none := by
  cases c <;> cases s <;> simp_all [JSON.leaf, setParts]

/-! ### Splicing at a resolvable path -/

/-- If navigation resolves a (nonempty) path to some value, then `set`'s
walk succeeds there and afterwards the path resolves to the new value. -/
theorem setParts_get_self (v : JSON) :
    ∀ (ps : List Part) (t x : JSON), ps ≠ [] → getParts t ps = some x →
      ∃ t2, setParts v t ps = some t2 ∧ getParts t2 ps = some v := by
  intro ps
  induction ps with
  | nil => intro t x h _; exact absurd rfl h
  | cons s r ih =>
    intro t x _ hget
    cases t with
    | null => simp [getParts] at hget
    | bool b => simp [getParts] at hget
    | num n => simp [getParts] at hget
    | str s' => simp [getParts] at hget
    | file fn sz hd => simp [getParts] at hget
    | obj fs =>
      cases s with
      | idx i => simp [getParts] at hget
      | key k =>
        cases hl : objLookup k fs with
        | none => simp [getParts, hl] at hget
        | some c =>
          simp only [getParts, hl] at hget
          cases r with
          | nil =>
            refine ⟨JSON.obj (objInsert k v fs), ?_, ?_⟩
            · simp [setParts]
            · simp [getParts, objLookup_objInsert_self]
          | cons s' r' =>
            obtain ⟨c2, hset2, hget2⟩ := ih c x (by simp) hget
            refine ⟨JSON.obj (objInsert k c2 fs), ?_, ?_⟩
            · simp [setParts, hl, hset2]
            · simp [getParts, objLookup_objInsert_self, hget2]
    | arr xs =>
      cases s with
      | key k => simp [getParts] at hget
      | idx i =>
        by_cases h0 : 0 ≤ i
        · cases hg : xs[i.toNat]? with
          | none => simp [getParts, h0, hg] at hget
          | some c =>
            simp only [getParts, h0, if_true, hg] at hget
            obtain ⟨hlt, -⟩ := List.getElem?_eq_some_iff.1 hg
            cases r with
            | nil =>
              refine ⟨JSON.arr (xs.set i.toNat v), ?_, ?_⟩
              · simp [setParts, h0, hg]
              · simp [getParts, h0, List.getElem?_set_self hlt]
            | cons s' r' =>
              obtain ⟨c2, hset2, hget2⟩ := ih c x (by simp) hget
              refine ⟨JSON.arr (xs.set i.toNat c2), ?_, ?_⟩
              · simp [setParts, h0, hg, hset2]
              · simp [getParts, h0, List.getElem?_set_self hlt, hget2]
        · simp [getParts, h0] at hget

/-- A successful walk of `set` starting at an object with a key segment
produces that object with one binding replaced or inserted. -/
theorem setParts_obj_shape (v : JSON) (fs : List (String × JSON)) (k : String)
    (r : List Part) (t2 : JSON) (h : setParts v (.obj fs) (.key k :: r) = some t2) :
    ∃ w, t2 = JSON.obj (objInsert k w fs) := by
  cases r with
  | nil =>
    simp only [setParts, List.isEmpty_nil, if_true, Option.some.injEq] at h
    exact ⟨v, h.symm⟩
  | cons a b =>
    cases hl : objLookup k fs with
    | none => simp [setParts, hl] at h
    | some c =>
      simp only [setParts, List.isEmpty_cons, Bool.false_eq_true, if_false, hl] at h
      obtain ⟨c2, hc2, ht2⟩ := Option.map_eq_some'.1 h
      exact ⟨c2, ht2.symm⟩

/-- A successful walk of `set` starting at an array with an index segment
produces that array with the addressed slot replaced. -/
theorem setParts_arr_shape (v : JSON) (xs : List JSON) (i : Int) (r : List Part) (t2 : JSON)
    (h : setParts v (.arr xs) (.idx i :: r) = some t2) :
    ∃ w, t2 = JSON.arr (xs.set i.toNat w) := by
  by_cases h0 : 0 ≤ i
  · cases hg : xs[i.toNat]? with
    | none => simp [setParts, h0, hg] at h
    | some c =>
      cases r with
      | nil =>
        simp only [setParts, h0, if_true, hg, List.isEmpty_nil, Option.some.injEq] at h
        exact ⟨v, h.symm⟩
      | cons a b =>
        simp only [setParts, h0, if_true, hg, List.isEmpty_cons, Bool.false_eq_true,
          if_false] at h
        obtain ⟨c2, hc2, ht2⟩ := Option.map_eq_some'.1 h
        exact ⟨c2, ht2.symm⟩
  · simp [setParts, h0] at h

/-- Splicing at one path leaves navigation at any *different* path
unchanged, provided both paths resolve to non-composite (leaf) values in
the original tree: two distinct leaf-addressing paths can never be
nested, so the walk of `set` never crosses the other location. -/
theorem setParts_preserves (v : JSON) :
    ∀ (ps1 : List Part) (t t2 : JSON) (ps2 : List Part),
      ps1 ≠ ps2 →
      (∃ x, getParts t ps1 = some x ∧ x.leaf = true) →
      (∃ y, getParts t ps2 = some y ∧ y.leaf = true) →
      setParts v t ps1 = some t2 →
      getParts t2 ps2 = getParts t ps2 := by
  intro ps1
  induction ps1 with
  | nil =>
    intro t t2 ps2 hne h1 h2 hset
    simp only [setParts, Option.some.injEq] at hset
    subst hset
    rfl
  | cons s1 r1 ih =>
    intro t t2 ps2 hne h1 h2 hset
    obtain ⟨x, hx, hxleaf⟩ := h1
    obtain ⟨y, hy, hyleaf⟩ := h2
    cases t with
    | null => simp [getParts] at hx
    | bool b => simp [getParts] at hx
    | num n => simp [getParts] at hx
    | str s => simp [getParts] at hx
    | file fn sz hd => simp [getParts] at hx
    | obj fs =>
      cases s1 with
      | idx i => simp [getParts] at hx
      | key k1 =>
        cases hl1 : objLookup k1 fs with
        | none => simp [getParts, hl1] at hx
        | some c1 =>
          simp only [getParts, hl1] at hx
          obtain ⟨w, hw⟩ := setParts_obj_shape v fs k1 r1 t2 hset
          subst hw
          cases ps2 with
          | nil =>
            simp only [getParts, Option.some.injEq] at hy
            subst hy
            simp [JSON.leaf] at hyleaf
          | cons s2 r2 =>
            cases s2 with
            | idx j => simp [getParts]
            | key k2 =>
              by_cases hk : k1 = k2
              · subst hk
                simp only [getParts, hl1] at hy
                cases r1 with
                | nil =>
                  simp only [getParts, Option.some.injEq] at hx
                  subst hx
                  cases r2 with
                  | nil => exact absurd rfl hne
                  | cons s2' r2' =>
                    rw [getParts_leaf_cons _ hxleaf] at hy
                    simp at hy
                | cons s1' r1' =>
                  cases r2 with
                  | nil =>
                    simp only [getParts, Option.some.injEq] at hy
                    subst hy
                    rw [getParts_leaf_cons _ hyleaf] at hx
                    simp at hx
                  | cons s2' r2' =>
                    simp only [setParts, List.isEmpty_cons, Bool.false_eq_true, if_false,
                      hl1] at hset
                    obtain ⟨c2, hc2, ht2⟩ := Option.map_eq_some'.1 hset
                    have hobj : JSON.obj (objInsert k1 w fs)
                        = JSON.obj (objInsert k1 c2 fs) := ht2.symm
                    have hr : (s1' :: r1') ≠ (s2' :: r2') := fun he => hne (by rw [he])
                    have hpres := ih c1 c2 (s2' :: r2') hr ⟨x, hx, hxleaf⟩
                      ⟨y, hy, hyleaf⟩ hc2
                    rw [hobj]
                    simp [getParts, objLookup_objInsert_self, hl1, hpres]
              · simp [getParts, objLookup_objInsert_ne k1 k2 hk]
    | arr xs =>
      cases s1 with
      | key k => simp [getParts] at hx
      | idx i1 =>
        by_cases h01 : 0 ≤ i1
        · cases hg1 : xs[i1.toNat]? with
          | none => simp [getParts, h01, hg1] at hx
          | some c1 =>
            simp only [getParts, h01, if_true, hg1] at hx
            obtain ⟨hlt1, -⟩ := List.getElem?_eq_some_iff.1 hg1
            obtain ⟨w, hw⟩ := setParts_arr_shape v xs i1 r1 t2 hset
            subst hw
            cases ps2 with
            | nil =>
              simp only [getParts, Option.some.injEq] at hy
              subst hy
              simp [JSON.leaf] at hyleaf
            | cons s2 r2 =>
              cases s2 with
              | key k2 => simp [getParts]
              | idx i2 =>
                by_cases h02 : 0 ≤ i2
                · by_cases hij : i1.toNat = i2.toNat
                  · have hi : i1 = i2 := by
                      rw [← Int.toNat_of_nonneg h01, ← Int.toNat_of_nonneg h02, hij]
                    subst hi
                    simp only [getParts, h01, if_true, hg1] at hy
                    cases r1 with
                    | nil =>
                      simp only [getParts, Option.some.injEq] at hx
                      subst hx
                      cases r2 with
                      | nil => exact absurd rfl hne
                      | cons s2' r2' =>
                        rw [getParts_leaf_cons _ hxleaf] at hy
                        simp at hy
                    | cons s1' r1' =>
                      cases r2 with
                      | nil =>
                        simp only [getParts, Option.some.injEq] at hy
                        subst hy
                        rw [getParts_leaf_cons _ hyleaf] at hx
                        simp at hx
                      | cons s2' r2' =>
                        simp only [setParts, h01, if_true, hg1, List.isEmpty_cons,
                          Bool.false_eq_true, if_false] at hset
                        obtain ⟨c2, hc2, ht2⟩ := Option.map_eq_some'.1 hset
                        have harr : JSON.arr (xs.set i1.toNat w)
                            = JSON.arr (xs.set i1.toNat c2) := ht2.symm
                        have hr : (s1' :: r1') ≠ (s2' :: r2') := fun he => hne (by rw [he])
                        have hpres := ih c1 c2 (s2' :: r2') hr ⟨x, hx, hxleaf⟩
                          ⟨y, hy, hyleaf⟩ hc2
                        rw [harr]
                        simp [getParts, h01, List.getElem?_set_self hlt1, hpres, hg1]
                  · simp [getParts, h02, List.getElem?_set_ne hij]
                · simp [getParts, h02]
        · simp [getParts, h01] at hx

/-! ### Path parsing produces at least one segment -/

theorem splitDot_ne_nil (cs : List Char) : splitDot cs ≠ [] := by
  cases cs with
  | nil => simp [splitDot]
  | cons c rest =>
    simp only [splitDot]
    cases splitDot rest with
    | nil => simp
    | cons s ss => by_cases h : c = '.' <;> simp [h]

theorem parsePath_ne_nil (p : String) : parsePath p ≠ [] := by
  intro h
  rw [parsePath] at h
  exact splitDot_ne_nil p.toList (List.map_eq_nil_iff.1 h)

/-! ### Fan-out: splicing one file at a list of destination paths -/

/-- Core fan-out invariant: if every path in the list currently resolves
to `null` or to the file being spliced, then the whole splice loop
succeeds, afterwards every listed path resolves to the file, and every
location that already held the file keeps holding it. -/
theorem spliceList_fanout (fn : String) (sz : Int) (hd : Nat) :
    ∀ (paths : List String) (t : JSON),
      (∀ p ∈ paths, getParts t (parsePath p) = some JSON.null ∨
        getParts t (parsePath p) = some (JSON.file fn sz hd)) →
      ∃ t2, spliceList (JSON.file fn sz hd) t paths = some t2 ∧
        (∀ p ∈ paths, getParts t2 (parsePath p) = some (JSON.file fn sz hd)) ∧
        (∀ qs, getParts t qs = some (JSON.file fn sz hd) →
          getParts t2 qs = some (JSON.file fn sz hd)) := by
  intro paths
  induction paths with
  | nil =>
    intro t _
    exact ⟨t, rfl, by simp, fun qs hq => hq⟩
  | cons p rest ih =>
    intro t h
    have hp := h p (by simp)
    have hleafp : ∃ x, getParts t (parsePath p) = some x ∧ x.leaf = true := by
      rcases hp with h1 | h1
      · exact ⟨_, h1, rfl⟩
      · exact ⟨_, h1, rfl⟩
    obtain ⟨x, hx, hxleaf⟩ := hleafp
    obtain ⟨t1, hset1, hget1⟩ :=
      setParts_get_self (JSON.file fn sz hd) (parsePath p) t x (parsePath_ne_nil p) hx
    have hrest : ∀ q ∈ rest, getParts t1 (parsePath q) = some JSON.null ∨
        getParts t1 (parsePath q) = some (JSON.file fn sz hd) := by
      intro q hq
      have hq' := h q (List.mem_cons_of_mem _ hq)
      by_cases hpq : parsePath q = parsePath p
      · right
        rw [hpq]
        exact hget1
      · have hql : ∃ y, getParts t (parsePath q) = some y ∧ y.leaf = true := by
          rcases hq' with h1 | h1
          · exact ⟨_, h1, rfl⟩
          · exact ⟨_, h1, rfl⟩
        have hpre := setParts_preserves (JSON.file fn sz hd) (parsePath p) t t1
          (parsePath q) (fun he => hpq he.symm) ⟨x, hx, hxleaf⟩ hql hset1
        rcases hq' with h1 | h1
        · left
          rw [hpre]
          exact h1
        · right
          rw [hpre]
          exact h1
    obtain ⟨t2, hsplice, hall, hkeep⟩ := ih t1 hrest
    refine ⟨t2, ?_, ?_, ?_⟩
    · simp only [spliceList, set, hset1, hsplice]
    · intro q hq
      rcases List.mem_cons.1 hq with hq1 | hq1
      · subst hq1
        exact hkeep (parsePath q) hget1
      · exact hall q hq1
    · intro qs hqs
      by_cases hqp : qs = parsePath p
      · rw [hqp]
        exact hkeep _ hget1
      · have hpre := setParts_preserves (JSON.file fn sz hd) (parsePath p) t t1 qs
          (fun he => hqp he.symm) ⟨x, hx, hxleaf⟩ ⟨_, hqs, rfl⟩ hset1
        exact hkeep qs (by rw [hpre]; exact hqs)

/-! ### Shape-mismatch failure -/

/-- A mismatching step makes the walk of `set` panic immediately. -/
theorem setParts_mismatch_head (v node : JSON) (s : Part) (rest : List Part)
    (hmis : segMismatch node s) : setParts v node (s :: rest) = none := by
  cases node with
  | obj fs =>
    cases s with
    | key k => exact absurd hmis (by simp [segMismatch])
    | idx i => simp [setParts]
  | arr xs =>
    cases s with
    | key k => simp [setParts]
    | idx i =>
      by_cases h0 : 0 ≤ i
      · have hlen : xs.length ≤ i.toNat := by
          by_contra hc
          exact hmis ⟨h0, Nat.lt_of_not_le hc⟩
        simp [setParts, h0, List.getElem?_eq_none hlen]
      · simp [setParts, h0]
  | null => cases s <;> simp [setParts]
  | bool b => cases s <;> simp [setParts]
  | num n => cases s <;> simp [setParts]
  | str s' => cases s <;> simp [setParts]
  | file fn sz hd => cases s <;> simp [setParts]

/-- A panic below a resolvable prefix propagates: the whole walk of
`set` fails. -/
theorem setParts_append_none (v : JSON) :
    ∀ (qs : List Part) (t node : JSON) (ps : List Part),
      getParts t qs = some node → ps ≠ [] → setParts v node ps = none →
      setParts v t (qs ++ ps) = none := by
  intro qs
  induction qs with
  | nil =>
    intro t node ps hget hne hnone
    simp only [getParts, Option.some.injEq] at hget
    subst hget
    simpa using hnone
  | cons s qs' ih =>
    intro t node ps hget hne hnone
    cases t with
    | null => simp [getParts] at hget
    | bool b => simp [getParts] at hget
    | num n => simp [getParts] at hget
    | str s' => simp [getParts] at hget
    | file fn sz hd => simp [getParts] at hget
    | obj fs =>
      cases s with
      | idx i => simp [getParts] at hget
      | key k =>
        cases hl : objLookup k fs with
        | none => simp [getParts, hl] at hget
        | some c =>
          simp only [getParts, hl] at hget
          have hrec := ih c node ps hget hne hnone
          cases hqp : qs' ++ ps with
          | nil => exact absurd hqp (by simp [hne])
          | cons a b =>
            rw [hqp] at hrec
            simp [setParts, List.cons_append, hqp, hl, hrec]
    | arr xs =>
      cases s with
      | key k => simp [getParts] at hget
      | idx i =>
        by_cases h0 : 0 ≤ i
        · cases hg : xs[i.toNat]? with
          | none => simp [getParts, h0, hg] at hget
          | some c =>
            simp only [getParts, h0, if_true, hg] at hget
            have hrec := ih c node ps hget hne hnone
            cases hqp : qs' ++ ps with
            | nil => exact absurd hqp (by simp [hne])
            | cons a b =>
              rw [hqp] at hrec
              simp [setParts, List.cons_append, hqp, h0, hg, hrec]
        · simp [getParts, h0] at hget

/-! ### Claim theorems: the path resolver -/

/-- Claim C1 (code bug): the specification's classification rule says a
segment is an index segment iff it consists entirely of digits
(`^\d+$`).  The code instead calls `regexp.MatchString` with the
UNANCHORED pattern `\d+`, which matches any segment *containing* a
digit, and then discards the `strconv.Atoi` error, so a mixed segment
such as `"a1"` is classified as an array-index segment with index `0`
instead of an object-key segment.  This theorem evaluates the code's
parser at the failing input: `"a1"` is not all digits, yet it parses as
`index 0`, not as `key "a1"`. -/
theorem parsePath_unanchored_digit_bug :
    parsePath "a1" = [Part.idx 0] ∧
    "a1".toList.all Char.isDigit = false ∧
    parsePath "a1" ≠ [Part.key "a1"] := by
  refine ⟨rfl, rfl, ?_⟩
  decide

/-- Claim C2: the path `"a.0.b"` parses to the segments
`[key "a", index 0, key "b"]`, and splicing any value into the tree
`{"a": [{"b": null}]}` at that path overwrites the placeholder `null` at
the nested `"b"` field of the first array element. -/
theorem splice_a0b_sets_nested_field :
    parsePath "a.0.b" = [Part.key "a", Part.idx 0, Part.key "b"] ∧
    ∀ v : JSON,
      set v (JSON.obj [("a", JSON.arr [JSON.obj [("b", JSON.null)]])]) "a.0.b"
        = some (JSON.obj [("a", JSON.arr [JSON.obj [("b", v)]])]) := by
  exact ⟨rfl, fun v => rfl⟩

/-- Claim C3: for an upload-map entry mapping one file to a list of
destination paths, if the operations tree holds `null` at every one of
those paths, then the splicing loop succeeds and afterwards *every*
declared path resolves to the very same spliced file value — no path is
skipped or deduplicated away. -/
theorem upload_fanout_sets_every_path (fn : String) (sz : Int) (hd : Nat)
    (paths : List String) (t : JSON)
    (h : ∀ p ∈ paths, getParts t (parsePath p) = some JSON.null) :
    ∃ t2, spliceList (JSON.file fn sz hd) t paths = some t2 ∧
      ∀ p ∈ paths, getParts t2 (parsePath p) = some (JSON.file fn sz hd) := by
  obtain ⟨t2, hs, hall, -⟩ :=
    spliceList_fanout fn sz hd paths t (fun p hp => Or.inl (h p hp))
  exact ⟨t2, hs, hall⟩

/-- Claim C3 witness: a concrete two-path fan-out `{field: [p1, p2]}`
into a tree with `null` placeholders at both paths. -/
theorem upload_fanout_sets_every_path_witness :
    (∀ p ∈ ["a.0.b", "c"],
      getParts (JSON.obj [("a", JSON.arr [JSON.obj [("b", JSON.null)]]), ("c", JSON.null)])
        (parsePath p) = some JSON.null) ∧
    ∃ t2, spliceList (JSON.file "f.txt" 3 0)
        (JSON.obj [("a", JSON.arr [JSON.obj [("b", JSON.null)]]), ("c", JSON.null)])
        ["a.0.b", "c"] = some t2 ∧
      ∀ p ∈ ["a.0.b", "c"],
        getParts t2 (parsePath p) = some (JSON.file "f.txt" 3 0) := by
  refine ⟨?_, upload_fanout_sets_every_path "f.txt" 3 0 ["a.0.b", "c"] _ ?_⟩ <;>
    (intro p hp
     rcases List.mem_cons.1 hp with h1 | h1
     · subst h1; rfl
     · rcases List.mem_singleton.1 h1 with rfl; rfl)

/-- Claim C9: a splice whose path reaches, after some resolvable prefix,
a node that does not match the next segment's shape (key segment on a
non-object, or index segment on a non-array or past the array's length)
fails: `set` never reports success and never silently leaves the tree
unchanged — in Go the failed type assertion or out-of-range index is a
runtime panic that propagates as a fatal fault of the request. -/
theorem splice_shape_mismatch_fails (v t node : JSON) (path : String)
    (qs : List Part) (s : Part) (rest : List Part)
    (hparse : parsePath path = qs ++ s :: rest)
    (hnav : getParts t qs = some node)
    (hmis : segMismatch node s) :
    set v t path = none := by
  rw [set, hparse]
  exact setParts_append_none v qs t node (s :: rest) hnav (by simp)
    (setParts_mismatch_head v node s rest hmis)

/-- Claim C9 witness: splicing into `{"a": 1}` at `"a.b"` hits the
scalar `1` with a key segment and fails. -/
theorem splice_shape_mismatch_fails_witness :
    parsePath "a.b" = [Part.key "a"] ++ [Part.key "b"] ∧
    getParts (JSON.obj [("a", JSON.num 1)]) [Part.key "a"] = some (JSON.num 1) ∧
    segMismatch (JSON.num 1) (Part.key "b") ∧
    set (JSON.str "X") (JSON.obj [("a", JSON.num 1)]) "a.b" = none :=
  ⟨rfl, rfl, trivial,
    splice_shape_mismatch_fails (JSON.str "X") (JSON.obj [("a", JSON.num 1)])
      (JSON.num 1) "a.b" [Part.key "a"] (Part.key "b") [] rfl rfl trivial⟩


/-! ### Dispatcher reduction lemmas and fixtures -/

theorem serveHTTP_post_json (exec : GoRequest → JSON) (r : HttpRequest)
    (hm : r.method = "POST")
    (hct : contentTypeOf r = "text/plain" ∨ contentTypeOf r = "application/json") :
    serveHTTP exec r = servePostJSON exec r := by
  rw [serveHTTP, hm]
  rcases hct with h | h <;> rw [h] <;> simp

theorem serveHTTP_multipart (exec : GoRequest → JSON) (r : HttpRequest)
    (hm : r.method = "POST") (hct : contentTypeOf r = "multipart/form-data") :
    serveHTTP exec r = serveMultipart exec r := by
  rw [serveHTTP, hm, hct]
  simp

/-! ### Claim theorems: the dispatcher -/

/-- Claim C10: for a request whose method is neither GET nor POST, the
handler sets the JSON content-type header and returns without writing a
body or a status (the transport's default success status, 200 in the
model), and the executor is never invoked. -/
theorem non_get_post_writes_nothing (exec : GoRequest → JSON) (r : HttpRequest)
    (h1 : r.method ≠ "GET") (h2 : r.method ≠ "POST") :
    serveHTTP exec r = Outcome.resp jsonContentType 200 [] [] := by
  rw [serveHTTP, if_neg h1, if_neg h2]

/-- Claim C10 witness: a PUT request. -/
theorem non_get_post_writes_nothing_witness :
    { baseRequest with method := "PUT" }.method ≠ "GET" ∧
    { baseRequest with method := "PUT" }.method ≠ "POST" ∧
    serveHTTP (fun _ => JSON.null) { baseRequest with method := "PUT" }
      = Outcome.resp jsonContentType 200 [] [] :=
  ⟨by decide, by decide,
    non_get_post_writes_nothing (fun _ => JSON.null) { baseRequest with method := "PUT" }
      (by decide) (by decide)⟩

/-- Claim C8: a POST whose decoded top-level value is neither a JSON
object nor a JSON array — including an empty (or undeclared-length)
body, which is never decoded at all — is answered with a bare HTTP 400,
empty body, and the executor is never invoked. -/
theorem post_unsupported_shape_400 (exec : GoRequest → JSON) (r : HttpRequest)
    (hm : r.method = "POST")
    (hct : contentTypeOf r = "text/plain" ∨ contentTypeOf r = "application/json")
    (hbody : r.contentLength ≤ 0 ∨
      (0 < r.contentLength ∧ ∃ j, r.bodyJSON = some j ∧ j.leaf = true)) :
    serveHTTP exec r = Outcome.resp jsonContentType 400 [] [] := by
  rw [serveHTTP_post_json exec r hm hct, servePostJSON]
  rcases hbody with h | ⟨hpos, j, hj, hleaf⟩
  · rw [if_neg (not_lt.2 h)]
    rfl
  · rw [if_pos hpos, hj]
    cases j with
    | obj fs => simp [JSON.leaf] at hleaf
    | arr xs => simp [JSON.leaf] at hleaf
    | null => rfl
    | bool b => rfl
    | num n => rfl
    | str s => rfl
    | file a b c => rfl

/-- Claim C8 witness: a POST body decoding to the bare string `"x"`. -/
theorem post_unsupported_shape_400_witness :
    { baseRequest with bodyJSON := some (JSON.str "x") }.method = "POST" ∧
    contentTypeOf { baseRequest with bodyJSON := some (JSON.str "x") }
      = "application/json" ∧
    (0 : Int) < { baseRequest with bodyJSON := some (JSON.str "x") }.contentLength ∧
    { baseRequest with bodyJSON := some (JSON.str "x") }.bodyJSON
      = some (JSON.str "x") ∧
    serveHTTP (fun _ => JSON.null) { baseRequest with bodyJSON := some (JSON.str "x") }
      = Outcome.resp jsonContentType 400 [] [] :=
  ⟨rfl, rfl, by decide, rfl,
    post_unsupported_shape_400 (fun _ => JSON.null)
      { baseRequest with bodyJSON := some (JSON.str "x") } rfl (Or.inr rfl)
      (Or.inr ⟨by decide, JSON.str "x", rfl, rfl⟩)⟩

/-- A batch of operation objects runs to completion: one invocation per
element, in list order, results in the same order. -/
theorem runBatch_all_objects (exec : GoRequest → JSON) (r : HttpRequest) :
    ∀ elems : List JSON, (∀ e ∈ elems, ∃ data, e = JSON.obj data) →
      runBatch exec r elems =
        (elems.map (fun e => mkOpRequest r e.objFields),
         some (elems.map (fun e => exec (mkOpRequest r e.objFields)))) := by
  intro elems
  induction elems with
  | nil => intro _; rfl
  | cons e rest ih =>
    intro h
    obtain ⟨data, he⟩ := h e (by simp)
    subst he
    have ih' := ih (fun x hx => h x (List.mem_cons_of_mem _ hx))
    simp [runBatch, ih', JSON.objFields]

/-- Claim C5: a POST body decoding to a JSON array of N operation
objects invokes the executor exactly once per element, sequentially in
array order, and the response body is the single encoded JSON array of
exactly N results in the same order. -/
theorem post_batch_in_order (exec : GoRequest → JSON) (r : HttpRequest)
    (elems : List JSON)
    (hm : r.method = "POST")
    (hct : contentTypeOf r = "text/plain" ∨ contentTypeOf r = "application/json")
    (hcl : 0 < r.contentLength)
    (hbody : r.bodyJSON = some (JSON.arr elems))
    (hobjs : ∀ e ∈ elems, ∃ data, e = JSON.obj data) :
    serveHTTP exec r =
      Outcome.resp jsonContentType 200
        [BodyChunk.jsonOf
          (JSON.arr (elems.map (fun e => exec (mkOpRequest r e.objFields))))]
        (elems.map (fun e => mkOpRequest r e.objFields)) ∧
    (elems.map (fun e => mkOpRequest r e.objFields)).length = elems.length := by
  refine ⟨?_, by simp⟩
  rw [serveHTTP_post_json exec r hm hct, servePostJSON, if_pos hcl, hbody]
  simp [dispatchOperations, runBatch_all_objects exec r elems hobjs]

/-- Claim C5 witness: a two-element batch, with an executor that echoes
the query so the result order is visible. -/
theorem post_batch_in_order_witness :
    (∀ e ∈ [JSON.obj [("query", JSON.str "a")], JSON.obj [("query", JSON.str "b")]],
      ∃ data, e = JSON.obj data) ∧
    serveHTTP (fun req => JSON.str req.query) batchRequest =
      Outcome.resp jsonContentType 200
        [BodyChunk.jsonOf (JSON.arr
          ([JSON.obj [("query", JSON.str "a")], JSON.obj [("query", JSON.str "b")]].map
            (fun e => (fun req : GoRequest => JSON.str req.query)
              (mkOpRequest batchRequest e.objFields))))]
        ([JSON.obj [("query", JSON.str "a")], JSON.obj [("query", JSON.str "b")]].map
          (fun e => mkOpRequest batchRequest e.objFields)) := by
  have hobjs : ∀ e ∈ [JSON.obj [("query", JSON.str "a")], JSON.obj [("query", JSON.str "b")]],
      ∃ data, e = JSON.obj data := by
    intro e he
    rcases List.mem_cons.1 he with h1 | h1
    · exact ⟨_, h1⟩
    · rcases List.mem_singleton.1 h1 with rfl
      exact ⟨_, rfl⟩
  exact ⟨hobjs,
    (post_batch_in_order (fun req => JSON.str req.query) batchRequest
      [JSON.obj [("query", JSON.str "a")], JSON.obj [("query", JSON.str "b")]]
      rfl (Or.inr rfl) (by decide) rfl hobjs).1⟩

/-- The single-object string-field extraction is verbatim for a present
string value and defaults to `""` otherwise. -/
theorem extractString_spec (data : List (String × JSON)) (k : String) :
    (∀ s, objLookup k data = some (JSON.str s) → extractString data k = s) ∧
    ((∀ s, objLookup k data ≠ some (JSON.str s)) → extractString data k = "") := by
  constructor
  · intro s hs
    simp [extractString, hs]
  · intro hall
    cases ho : objLookup k data with
    | none => simp [extractString, ho]
    | some j =>
      cases j with
      | str s => exact absurd ho (hall s)
      | null => simp [extractString, ho]
      | bool b => simp [extractString, ho]
      | num n => simp [extractString, ho]
      | arr xs => simp [extractString, ho]
      | obj fs => simp [extractString, ho]
      | file a b c => simp [extractString, ho]

/-- The `variables` extraction is verbatim for a present object value
and defaults to the empty mapping otherwise. -/
theorem extractVariables_spec (data : List (String × JSON)) :
    (∀ m, objLookup "variables" data = some (JSON.obj m) →
      extractVariables data = m) ∧
    ((∀ m, objLookup "variables" data ≠ some (JSON.obj m)) →
      extractVariables data = []) := by
  constructor
  · intro m hm
    simp [extractVariables, hm]
  · intro hall
    cases ho : objLookup "variables" data with
    | none => simp [extractVariables, ho]
    | some j =>
      cases j with
      | obj m => exact absurd ho (hall m)
      | null => simp [extractVariables, ho]
      | bool b => simp [extractVariables, ho]
      | num n => simp [extractVariables, ho]
      | str s => simp [extractVariables, ho]
      | arr xs => simp [extractVariables, ho]
      | file a b c => simp [extractVariables, ho]

/-- Claim C6: a POST body decoding to a single JSON object yields
exactly one executor invocation whose request carries the object's
`operationName`, `query` and `variables` fields verbatim, with
`operationName`/`query` defaulting to `""` and `variables` to the empty
mapping when the field is absent, `null`, or not of the expected type;
the response is the encoded result of that one invocation. -/
theorem post_single_object_normalization (exec : GoRequest → JSON) (r : HttpRequest)
    (data : List (String × JSON))
    (hm : r.method = "POST")
    (hct : contentTypeOf r = "text/plain" ∨ contentTypeOf r = "application/json")
    (hcl : 0 < r.contentLength)
    (hbody : r.bodyJSON = some (JSON.obj data)) :
    serveHTTP exec r =
      Outcome.resp jsonContentType 200 [BodyChunk.jsonOf (exec (mkOpRequest r data))]
        [mkOpRequest r data] ∧
    (∀ s, objLookup "operationName" data = some (JSON.str s) →
      (mkOpRequest r data).operationName = s) ∧
    ((∀ s, objLookup "operationName" data ≠ some (JSON.str s)) →
      (mkOpRequest r data).operationName = "") ∧
    (∀ s, objLookup "query" data = some (JSON.str s) →
      (mkOpRequest r data).query = s) ∧
    ((∀ s, objLookup "query" data ≠ some (JSON.str s)) →
      (mkOpRequest r data).query = "") ∧
    (∀ m, objLookup "variables" data = some (JSON.obj m) →
      (mkOpRequest r data).vars = m) ∧
    ((∀ m, objLookup "variables" data ≠ some (JSON.obj m)) →
      (mkOpRequest r data).vars = []) := by
  refine ⟨?_, ?_, ?_, ?_, ?_, ?_, ?_⟩
  · rw [serveHTTP_post_json exec r hm hct, servePostJSON, if_pos hcl, hbody]
    rfl
  · intro s hs
    exact (extractString_spec data "operationName").1 s hs
  · intro hall
    exact (extractString_spec data "operationName").2 hall
  · intro s hs
    exact (extractString_spec data "query").1 s hs
  · intro hall
    exact (extractString_spec data "query").2 hall
  · intro m hm2
    exact (extractVariables_spec data).1 m hm2
  · intro hall
    exact (extractVariables_spec data).2 hall

/-- Claim C6 witness: a body with a string `query`, a numeric
`operationName` (wrong type, defaults to `""`) and no `variables`
(defaults to the empty mapping). -/
theorem post_single_object_normalization_witness :
    { baseRequest with bodyJSON := some (JSON.obj
        [("operationName", JSON.num 7), ("query", JSON.str "q")]) }.bodyJSON
      = some (JSON.obj [("operationName", JSON.num 7), ("query", JSON.str "q")]) ∧
    serveHTTP (fun _ => JSON.null)
        { baseRequest with bodyJSON := some (JSON.obj
            [("operationName", JSON.num 7), ("query", JSON.str "q")]) } =
      Outcome.resp jsonContentType 200
        [BodyChunk.jsonOf JSON.null]
        [mkOpRequest { baseRequest with bodyJSON := some (JSON.obj
            [("operationName", JSON.num 7), ("query", JSON.str "q")]) }
          [("operationName", JSON.num 7), ("query", JSON.str "q")]] ∧
    (mkOpRequest { baseRequest with bodyJSON := some (JSON.obj
        [("operationName", JSON.num 7), ("query", JSON.str "q")]) }
      [("operationName", JSON.num 7), ("query", JSON.str "q")]).query = "q" ∧
    (mkOpRequest { baseRequest with bodyJSON := some (JSON.obj
        [("operationName", JSON.num 7), ("query", JSON.str "q")]) }
      [("operationName", JSON.num 7), ("query", JSON.str "q")]).operationName = "" ∧
    (mkOpRequest { baseRequest with bodyJSON := some (JSON.obj
        [("operationName", JSON.num 7), ("query", JSON.str "q")]) }
      [("operationName", JSON.num 7), ("query", JSON.str "q")]).vars = [] := by
  have h := post_single_object_normalization (fun _ => JSON.null)
    { baseRequest with bodyJSON := some (JSON.obj
        [("operationName", JSON.num 7), ("query", JSON.str "q")]) }
    [("operationName", JSON.num 7), ("query", JSON.str "q")]
    rfl (Or.inr rfl) (by decide) rfl
  exact ⟨rfl, h.1, h.2.2.2.1 "q" rfl,
    h.2.2.1 (by intro s hs; simp [objLookup] at hs),
    h.2.2.2.2.2.2 (by intro m hm; simp [objLookup] at hm)⟩

/-- The batch loop on a prefix of objects followed by a non-object
element: the prefix is executed in order, then the bare type assertion
panics, so no result list is produced. -/
theorem runBatch_prefix_panic (exec : GoRequest → JSON) (r : HttpRequest) (bad : JSON)
    (post : List JSON) (hbad : ∀ data, bad ≠ JSON.obj data) :
    ∀ pre : List JSON, (∀ e ∈ pre, ∃ data, e = JSON.obj data) →
      runBatch exec r (pre ++ bad :: post) =
        (pre.map (fun e => mkOpRequest r e.objFields), none) := by
  intro pre
  induction pre with
  | nil =>
    intro _
    cases bad with
    | obj data => exact absurd rfl (hbad data)
    | null => rfl
    | bool b => rfl
    | num n => rfl
    | str s => rfl
    | arr xs => rfl
    | file a b c => rfl
  | cons e rest ih =>
    intro h
    obtain ⟨data, he⟩ := h e (by simp)
    subst he
    have ih' := ih (fun x hx => h x (List.mem_cons_of_mem _ hx))
    simp [runBatch, ih', JSON.objFields]

/-- Claim C7 counterexample: the batch `[1]` contains a non-object
element; the handler does NOT answer HTTP 400 — it panics (a fatal
server fault) before any response is written. -/
theorem batch_non_object_panics_counterexample :
    serveHTTP (fun _ => JSON.null)
        { baseRequest with bodyJSON := some (JSON.arr [JSON.num 1]) }
      = Outcome.panic [] ∧
    ¬ ∃ ct body calls, serveHTTP (fun _ => JSON.null)
        { baseRequest with bodyJSON := some (JSON.arr [JSON.num 1]) }
      = Outcome.resp ct 400 body calls := by
  refine ⟨rfl, ?_⟩
  rintro ⟨ct, body, calls, h⟩
  have heq : serveHTTP (fun _ => JSON.null)
      { baseRequest with bodyJSON := some (JSON.arr [JSON.num 1]) }
      = Outcome.panic [] := rfl
  rw [heq] at h
  exact Outcome.noConfusion h

/-- Claim C7 (amended): a POST batch containing a non-object element
fails with a runtime panic (a fatal server fault propagated out of the
handler) raised by the unchecked type assertion
`operation.(map[string]interface{})`, not with an HTTP 400.  The
elements before the failing one are executed sequentially in order; the
failing element itself (and everything after it) never reaches the
backend, and no response is written. -/
theorem batch_non_object_element_panics (exec : GoRequest → JSON) (r : HttpRequest)
    (pre post : List JSON) (bad : JSON)
    (hm : r.method = "POST")
    (hct : contentTypeOf r = "text/plain" ∨ contentTypeOf r = "application/json")
    (hcl : 0 < r.contentLength)
    (hbody : r.bodyJSON = some (JSON.arr (pre ++ bad :: post)))
    (hpre : ∀ e ∈ pre, ∃ data, e = JSON.obj data)
    (hbad : ∀ data, bad ≠ JSON.obj data) :
    serveHTTP exec r = Outcome.panic (pre.map (fun e => mkOpRequest r e.objFields)) := by
  rw [serveHTTP_post_json exec r hm hct, servePostJSON, if_pos hcl, hbody]
  simp [dispatchOperations, runBatch_prefix_panic exec r bad post hbad pre hpre]

/-- Claim C7 witness: one good object, then the scalar `2`: the single
preceding element is executed, then the handler panics. -/
theorem batch_non_object_element_panics_witness :
    { baseRequest with bodyJSON := some (JSON.arr
        [JSON.obj [("query", JSON.str "a")], JSON.num 2]) }.bodyJSON
      = some (JSON.arr ([JSON.obj [("query", JSON.str "a")]] ++ JSON.num 2 :: [])) ∧
    (∀ data, JSON.num 2 ≠ JSON.obj data) ∧
    serveHTTP (fun _ => JSON.null)
        { baseRequest with bodyJSON := some (JSON.arr
            [JSON.obj [("query", JSON.str "a")], JSON.num 2]) }
      = Outcome.panic ([JSON.obj [("query", JSON.str "a")]].map
          (fun e => mkOpRequest
            { baseRequest with bodyJSON := some (JSON.arr
                [JSON.obj [("query", JSON.str "a")], JSON.num 2]) } e.objFields)) := by
  refine ⟨rfl, fun data h => JSON.noConfusion h, ?_⟩
  exact batch_non_object_element_panics (fun _ => JSON.null)
    { baseRequest with bodyJSON := some (JSON.arr
        [JSON.obj [("query", JSON.str "a")], JSON.num 2]) }
    [JSON.obj [("query", JSON.str "a")]] [] (JSON.num 2)
    rfl (Or.inr rfl) (by decide) rfl
    (by intro e he; rcases List.mem_singleton.1 he with rfl; exact ⟨_, rfl⟩)
    (fun data h => JSON.noConfusion h)

/-- A missing file part for any entry of the decoded upload map makes
the collection loop fail. -/
theorem collectUploads_missing (files : List (String × FilePart)) :
    ∀ (m : List (String × List String)) (key : String) (paths : List String),
      (key, paths) ∈ m → fileGet files key = none →
      collectUploads files m = none := by
  intro m
  induction m with
  | nil => intro key paths h _; simp at h
  | cons e rest ih =>
    intro key paths hmem hmiss
    obtain ⟨k, ps⟩ := e
    rcases List.mem_cons.1 hmem with heq | hmem'
    · cases heq
      simp [collectUploads, hmiss]
    · cases hg : fileGet files k with
      | none => simp [collectUploads, hg]
      | some f => simp [collectUploads, hg, ih key paths hmem' hmiss]

/-- Claim C4 counterexample: with upload map `{"file0": ["variables.f"]}`
and no file part named `file0`, the handler answers an ordinary HTTP 400
client error (message "JSON syntax error", written by `http.Error`) and
does not fail fatally — contradicting both halves of the claim: the
failure is treated as an ordinary client error, and an error IS
surfaced. -/
theorem multipart_missing_file_part_counterexample :
    serveHTTP (fun _ => JSON.null) multipartMissingRequest
      = Outcome.resp textPlainContentType 400 [BodyChunk.text "JSON syntax error\n"] [] ∧
    ¬ ∃ calls, serveHTTP (fun _ => JSON.null) multipartMissingRequest
      = Outcome.panic calls := by
  refine ⟨rfl, ?_⟩
  rintro ⟨calls, h⟩
  have heq : serveHTTP (fun _ => JSON.null) multipartMissingRequest
      = Outcome.resp textPlainContentType 400 [BodyChunk.text "JSON syntax error\n"] [] :=
    rfl
  rw [heq] at h
  exact Outcome.noConfusion h

/-- Claim C4 (amended): a multipart request whose decoded upload map
contains a field name with no matching file part in the form is answered
with an ordinary HTTP 400 client error (message "JSON syntax error",
written by `http.Error`), and the executor is never invoked.  It is not
a fatal (server-fault) failure, and there is no client-disconnect
special case at the file-lookup step (`errHandler` is not involved
there). -/
theorem multipart_missing_file_part_400 (exec : GoRequest → JSON) (r : HttpRequest)
    (m : List (String × List String)) (key : String) (paths : List String)
    (hm : r.method = "POST")
    (hct : contentTypeOf r = "multipart/form-data")
    (hparse : r.formParseError = none)
    (hmap : r.formMapJSON = some m)
    (hmem : (key, paths) ∈ m)
    (hmiss : fileGet r.formFiles key = none) :
    serveHTTP exec r
      = Outcome.resp textPlainContentType 400 [BodyChunk.text "JSON syntax error\n"] [] := by
  rw [serveHTTP_multipart exec r hm hct, serveMultipart, hparse]
  simp only [serveMultipartBody, hmap,
    collectUploads_missing r.formFiles m key paths hmem hmiss, httpError]
  rfl

/-- Claim C4 witness (for the amended statement): upload map `{"g": ["x"]}`
with a form whose only file part is named `h`. -/
theorem multipart_missing_file_part_400_witness :
    { multipartMissingRequest with
        formMapJSON := some [("g", ["x"])]
        formFiles := [("h", FilePart.mk "h.bin" 9 1)] }.formMapJSON
      = some [("g", ["x"])] ∧
    ("g", ["x"]) ∈ [(("g" : String), (["x"] : List String))] ∧
    fileGet { multipartMissingRequest with
        formMapJSON := some [("g", ["x"])]
        formFiles := [("h", FilePart.mk "h.bin" 9 1)] }.formFiles "g" = none ∧
    serveHTTP (fun _ => JSON.null)
        { multipartMissingRequest with
            formMapJSON := some [("g", ["x"])]
            formFiles := [("h", FilePart.mk "h.bin" 9 1)] }
      = Outcome.resp textPlainContentType 400 [BodyChunk.text "JSON syntax error\n"] [] :=
  ⟨rfl, by simp, rfl,
    multipart_missing_file_part_400 (fun _ => JSON.null)
      { multipartMissingRequest with
          formMapJSON := some [("g", ["x"])]
          formFiles := [("h", FilePart.mk "h.bin" 9 1)] }
      [("g", ["x"])] "g" ["x"] rfl rfl rfl rfl (by simp) rfl⟩


end GraphqlUpload
